import Mathlib

/-!
Verification of the metadata extraction and interpretation layer of
go-exiframe (src/main.go, function getExif).  The external go-exif
library is modelled through the interface the specification assigns to
it: a path-addressable directory tree whose tag search returns zero or
more entries and whose value decode either yields a string or fails.
Everything below that interface is translated directly from src/main.go.
-/

namespace Exiframe

/-- Decimal digit test (Go isDigit / digits 0-9). -/
def isDig (c : Char) : Bool := decide ('0' ≤ c) && decide (c ≤ '9')

/-- Numeric value of a decimal digit character. -/
def digVal (c : Char) : Nat := c.toNat - 48

/-- Value of a list of decimal digit characters, base 10, most significant
    digit first. -/
def digitsToNat (ds : List Char) : Nat := ds.foldl (fun a c => 10 * a + digVal c) 0

/-- Syntactic part of strconv.ParseInt with base 10: an optional single
    sign character followed by one or more decimal digits.  Returns the
    sign (true for negative) and the unbounded digit value. -/
def parseIntStr (cs : List Char) : Option (Bool × Nat) :=
  match cs with
  | [] => none
  | c :: rest =>
    let p : Bool × List Char :=
      if c = '-' then (true, rest)
      else if c = '+' then (false, rest)
      else (false, c :: rest)
    match p with
    | (neg, ds) =>
      if ds.isEmpty then none
      else if ds.all isDig then some (neg, digitsToNat ds) else none

/-- True when the string is a syntactically valid base-10 integer
    (optional sign, one or more digits). -/
def validIntStr (cs : List Char) : Bool := (parseIntStr cs).isSome

/-- The mathematical integer denoted by a syntactically valid base-10
    string; 0 when the string is not syntactically valid. -/
def intValOf (cs : List Char) : Int :=
  match parseIntStr cs with
  | none => 0
  | some (neg, m) => if neg then -(m : Int) else (m : Int)

/-- Model of strconv.Atoi (= ParseInt base 10 into a 64-bit int): returns
    the value Go returns together with a success flag.  A syntax error
    yields (0, false); an out-of-range value yields the clamped extreme
    together with false (Go returns ErrRange carrying MaxInt64 or
    MinInt64). -/
def atoiPair (cs : List Char) : Int × Bool :=
  match parseIntStr cs with
  | none => (0, false)
  | some (neg, m) =>
    if neg then
      (if m ≤ 2 ^ 63 then (-(m : Int), true) else (-(2 ^ 63 : Int), false))
    else
      (if m < 2 ^ 63 then ((m : Int), true) else ((2 ^ 63 - 1 : Int), false))

/-! ## IEEE-754 binary32 model

float32 values produced by the source are NaN, a signed infinity, or a
signed finite dyadic magnitude kept exactly as a significand times a
power of two.  Conversion from int and division round to nearest, ties
to even, exactly as IEEE 754 prescribes.  All arithmetic is structural
over Nat and Int so that concrete instances evaluate inside the
kernel. -/

/-- Fuel-driven floor of the base-2 logarithm (equals Nat.log 2 when the
    fuel is at least the argument). -/
def lg2p : Nat → Nat → Nat
  | 0, _ => 0
  | fuel + 1, n => if n < 2 then 0 else lg2p fuel (n / 2) + 1

/-- Floor of the base-2 logarithm of a natural number. -/
def lg2 (n : Nat) : Nat := lg2p n n

/-- n times 2 to the z, where only nonnegative z shifts (callers arrange
    exponents so that this suffices). -/
def shNat (n : Nat) (z : ℤ) : Nat := n * 2 ^ z.toNat

/-- Decide n times 2 to the a strictly below d times 2 to the b. -/
def ltShift (n : Nat) (a : ℤ) (d : Nat) (b : ℤ) : Bool :=
  shNat n (a - min a b) < shNat d (b - min a b)

/-- Round the fraction num over den (den positive) to an integer,
    nearest, ties to even. -/
def rneFrac (num den : Nat) : Nat :=
  if 2 * (num % den) < den then num / den
  else if den < 2 * (num % den) then num / den + 1
  else if (num / den) % 2 = 0 then num / den else num / den + 1

/-- A float32 value: NaN, a signed infinity, or a signed finite magnitude
    m times 2 to the e (zero when m = 0). -/
inductive F32 where
  | nan : F32
  | inf (neg : Bool) : F32
  | finite (neg : Bool) (m : Nat) (e : ℤ) : F32
deriving DecidableEq

/-- Round the positive rational (n / d) times 2 to the sh onto the
    binary32 grid (24-bit significand, minimum normal exponent -126,
    subnormal quantum 2 to the -149), nearest, ties to even; overflow at
    2 to the 128 becomes infinity.  Requires n, d positive. -/
def roundPos (neg : Bool) (n d : Nat) (sh : ℤ) : F32 :=
  let e0 : ℤ := (lg2 n : ℤ) - (lg2 d : ℤ) + sh
  let e : ℤ := if ltShift n sh d e0 then e0 - 1 else e0
  let k : ℤ := max e (-126) - 23
  let t : ℤ := sh - k
  let num := shNat n t
  let den := shNat d (-t)
  let m := rneFrac num den
  if ltShift m k 1 128 then .finite neg m k else .inf neg

/-- Conversion of an integer to float32, rounding to nearest even
    (Go float32(n)). -/
def f32ofInt (i : Int) : F32 :=
  if i = 0 then .finite false 0 0
  else roundPos (decide (i < 0)) i.natAbs 1 0

/-- IEEE-754 binary32 division (Go float32 division): correctly rounded
    exact quotient, with the usual special cases for NaN, infinities and
    signed zeros. -/
def f32div : F32 → F32 → F32
  | .nan, _ => .nan
  | _, .nan => .nan
  | .inf _, .inf _ => .nan
  | .inf s, .finite t _ _ => .inf (xor s t)
  | .finite s _ _, .inf t => .finite (xor s t) 0 0
  | .finite s m1 e1, .finite t m2 e2 =>
    if m2 = 0 then (if m1 = 0 then .nan else .inf (xor s t))
    else if m1 = 0 then .finite (xor s t) 0 0
    else roundPos (xor s t) m1 m2 (e1 - e2)

/-- Go fmt.Sprintf with the fixed-point verb at one decimal digit,
    applied to a float32: the exact binary value is rounded to one
    decimal digit, nearest, ties to even (as strconv does on the exact
    decimal expansion); NaN and the infinities print their names. -/
def fmt1 : F32 → String
  | .nan => "NaN"
  | .inf true => "-Inf"
  | .inf false => "+Inf"
  | .finite neg m e =>
    let n10 := rneFrac (shNat (m * 10) e) (shNat 1 (-e))
    (if neg then "-" else "") ++ toString (n10 / 10) ++ "." ++ toString (n10 % 10)

/-! ## FNumber transform (src/main.go lines 180-192) -/

/-- Model of strings.Split on the single-character separator slash. -/
def splitSlash : List Char → List (List Char)
  | [] => [[]]
  | c :: rest =>
    if c = '/' then [] :: splitSlash rest
    else
      match splitSlash rest with
      | p :: ps => (c :: p) :: ps
      | [] => [[c]]

/-- Model of strings.Contains with the slash separator. -/
def containsSlash (cs : List Char) : Bool := cs.any (fun c => c = '/')

/-- The FNumber branch of the getExif switch: if the raw string contains
    a slash, split it, convert the first two parts with Atoi discarding
    the errors, divide as float32 and format with one decimal digit;
    otherwise pass the raw string through unchanged. -/
def interpFNumber (v : String) : String :=
  if containsSlash v.data then
    let parts := splitSlash v.data
    let numerator := (atoiPair (parts.getD 0 [])).1
    let denominator := (atoiPair (parts.getD 1 [])).1
    fmt1 (f32div (f32ofInt numerator) (f32ofInt denominator))
  else v

/-! ## DateTimeOriginal: Go time.Parse with layout "2006:01:02 15:04:05"
    and time.Format with layout "2006/01/02 15:04"
    (src/main.go lines 199-207)

The parse model follows Go exactly for this fixed layout: a four-digit
year, fixed two-digit month, day, minute and second, a one-or-two-digit
hour, literal colons, a literal space that absorbs consecutive spaces, an
optional fractional-second tail after the seconds, nothing left over, and
the range checks Go performs afterwards (month 1-12, day within the month
taking leap years into account, hour below 24, minute and second below
60). -/

/-- A parsed wall-clock timestamp (the fields getExif uses). -/
structure GoTime where
  year : Nat
  month : Nat
  day : Nat
  hour : Nat
  minute : Nat
  second : Nat
deriving DecidableEq

/-- Read exactly four digit characters (Go stdLongYear). -/
def get4 : List Char → Option (Nat × List Char)
  | a :: b :: c :: d :: rest =>
    if isDig a && isDig b && isDig c && isDig d then
      some (digitsToNat [a, b, c, d], rest)
    else none
  | _ => none

/-- Read exactly two digit characters (Go getnum with fixed width). -/
def get2 : List Char → Option (Nat × List Char)
  | a :: b :: rest =>
    if isDig a && isDig b then some (10 * digVal a + digVal b, rest) else none
  | _ => none

/-- Read one or two digit characters (Go getnum without fixed width, used
    for the hour). -/
def get1or2 : List Char → Option (Nat × List Char)
  | [a] => if isDig a then some (digVal a, []) else none
  | a :: b :: rest =>
    if isDig a then
      (if isDig b then some (10 * digVal a + digVal b, rest)
       else some (digVal a, b :: rest))
    else none
  | [] => none

/-- Consume one literal character. -/
def lit (c : Char) : List Char → Option (List Char)
  | d :: rest => if d = c then some rest else none
  | [] => none

/-- Go skip on a literal space: a nonempty input must start with a space,
    and then all leading spaces are consumed; an empty input passes. -/
def skipSpace : List Char → Option (List Char)
  | c :: rest => if c = ' ' then some (rest.dropWhile (fun x => x = ' ')) else none
  | [] => some []

/-- Go accepts an unsolicited fractional second after the seconds field:
    a period or comma followed by at least one digit consumes the
    separator and the whole digit run. -/
def skipFrac (cs : List Char) : List Char :=
  match cs with
  | c :: d :: rest =>
    if (c = '.' ∨ c = ',') ∧ isDig d then (d :: rest).dropWhile isDig
    else cs
  | _ => cs

/-- Leap-year rule used by Go time. -/
def isLeap (y : Nat) : Bool := y % 4 == 0 && (y % 100 != 0 || y % 400 == 0)

/-- Days in a month (month assumed 1-12 when it matters). -/
def daysIn (m y : Nat) : Nat :=
  if m = 2 then (if isLeap y then 29 else 28)
  else if m = 4 ∨ m = 6 ∨ m = 9 ∨ m = 11 then 30
  else 31

/-- Model of Go time.Parse with the layout used by getExif.  Returns the
    parsed fields, or none on any structural or range failure. -/
def parseDTO (v : String) : Option GoTime :=
  match get4 v.data with
  | none => none
  | some (year, s1) =>
    match lit ':' s1 with
    | none => none
    | some s2 =>
      match get2 s2 with
      | none => none
      | some (month, s3) =>
        match lit ':' s3 with
        | none => none
        | some s4 =>
          match get2 s4 with
          | none => none
          | some (day, s5) =>
            match skipSpace s5 with
            | none => none
            | some s6 =>
              match get1or2 s6 with
              | none => none
              | some (hour, s7) =>
                match lit ':' s7 with
                | none => none
                | some s8 =>
                  match get2 s8 with
                  | none => none
                  | some (minute, s9) =>
                    match lit ':' s9 with
                    | none => none
                    | some s10 =>
                      match get2 s10 with
                      | none => none
                      | some (second, s11) =>
                        if skipFrac s11 = [] ∧
                           1 ≤ month ∧ month ≤ 12 ∧
                           1 ≤ day ∧ day ≤ daysIn month year ∧
                           hour ≤ 23 ∧ minute ≤ 59 ∧ second ≤ 59 then
                          some ⟨year, month, day, hour, minute, second⟩
                        else none

/-- Two-digit zero padding (Go appendInt with width 2). -/
def pad2 (n : Nat) : String := if n < 10 then "0" ++ toString n else toString n

/-- Four-digit zero padding (Go appendInt with width 4, years 0-9999). -/
def pad4 (n : Nat) : String :=
  if n < 10 then "000" ++ toString n
  else if n < 100 then "00" ++ toString n
  else if n < 1000 then "0" ++ toString n
  else toString n

/-- Model of t.Format with layout "2006/01/02 15:04". -/
def formatDTO (t : GoTime) : String :=
  pad4 t.year ++ "/" ++ pad2 t.month ++ "/" ++ pad2 t.day ++ " " ++
    pad2 t.hour ++ ":" ++ pad2 t.minute

example : interpFNumber "16/10" = "1.6" := by decide
example : interpFNumber "28/1" = "28.0" := by decide
example : interpFNumber "4" = "4" := by decide
example : interpFNumber "ab/cd" = "NaN" := by decide
example : interpFNumber "1/x" = "+Inf" := by decide
example : interpFNumber "-1/x" = "-Inf" := by decide
example : interpFNumber "0/-5" = "-0.0" := by decide
example : interpFNumber "18/10" = "1.8" := by decide
example : interpFNumber "1/3" = "0.3" := by decide
example : interpFNumber "7/20" = "0.3" := by decide
example : interpFNumber "1/4" = "0.2" := by decide

example : parseDTO "2023:04:05 09:30:00" = some ⟨2023, 4, 5, 9, 30, 0⟩ := by decide
example : formatDTO ⟨2023, 4, 5, 9, 30, 0⟩ = "2023/04/05 09:30" := by decide
example : parseDTO "    :  :     :  :  " = none := by decide
example : parseDTO "2023:02:30 10:00:00" = none := by decide
example : parseDTO "2024:02:29 00:00:00" = some ⟨2024, 2, 29, 0, 0, 0⟩ := by decide
example : parseDTO "2023:13:05 09:30:00" = none := by decide
example : parseDTO "2023:04:05 09:30:00x" = none := by decide

/-! ## Data model (src/main.go lines 48-113)

The ExifData structure, the logical field names, and the static table
mapping each field name to its numeric tag id and directory path. -/

/-- The Metadata Record populated by getExif.  Field types as in the Go
    struct: strings except for the two pixel dimensions, which are ints.
    Zero values as in Go: empty string and 0. -/
@[ext]
structure ExifData where
  Make : String
  Model : String
  LensMake : String
  LensModel : String
  ExposureTime : String
  FNumber : String
  PhotographicSensitivity : String
  FocalLengthIn35mmFilm : String
  FocalLength : String
  DateTimeOriginal : String
  PixelXDimension : Int
  PixelYDimension : Int
  Orientation : String
deriving DecidableEq

/-- The record exifData starts from: every field at its Go zero value. -/
def exifInit : ExifData :=
  ⟨"", "", "", "", "", "", "", "", "", "", 0, 0, ""⟩

/-- The thirteen logical field names (the keys of IFD_PATH_MAP). -/
inductive TagName where
  | make | model | lensMake | lensModel
  | exposureTime | fNumber | photographicSensitivity
  | focalLengthIn35mmFilm | focalLength
  | dateTimeOriginal | pixelXDimension | pixelYDimension | orientation
deriving DecidableEq

/-- Directory path constants. -/
def IFD_PATH : String := "IFD"

/-- Directory path of the Exif sub-directory. -/
def EXIF_IFD_PATH : String := "IFD/Exif"

/-- Numeric tag id of each logical field (IFD_PATH_MAP). -/
def tagIdOf : TagName → Nat
  | .make => 0x010f
  | .model => 0x0110
  | .lensMake => 0xa433
  | .lensModel => 0xa434
  | .exposureTime => 0x829a
  | .fNumber => 0x829d
  | .photographicSensitivity => 0x8827
  | .focalLengthIn35mmFilm => 0xa405
  | .focalLength => 0x920a
  | .dateTimeOriginal => 0x9003
  | .pixelXDimension => 0xa002
  | .pixelYDimension => 0xa003
  | .orientation => 0x0112

/-- Directory path of each logical field (IFD_PATH_MAP). -/
def ifdPathOf : TagName → String
  | .make => IFD_PATH
  | .model => IFD_PATH
  | .orientation => IFD_PATH
  | _ => EXIF_IFD_PATH

/-- A value stored into the record: a string or an int. -/
inductive FieldVal where
  | s (v : String) : FieldVal
  | i (v : Int) : FieldVal
deriving DecidableEq

/-- Read the record field named by a tag name. -/
def projField : TagName → ExifData → FieldVal
  | .make, r => .s r.Make
  | .model, r => .s r.Model
  | .lensMake, r => .s r.LensMake
  | .lensModel, r => .s r.LensModel
  | .exposureTime, r => .s r.ExposureTime
  | .fNumber, r => .s r.FNumber
  | .photographicSensitivity, r => .s r.PhotographicSensitivity
  | .focalLengthIn35mmFilm, r => .s r.FocalLengthIn35mmFilm
  | .focalLength, r => .s r.FocalLength
  | .dateTimeOriginal, r => .s r.DateTimeOriginal
  | .pixelXDimension, r => .i r.PixelXDimension
  | .pixelYDimension, r => .i r.PixelYDimension
  | .orientation, r => .s r.Orientation

/-- Write the record field named by a tag name (identity on a value of
    the wrong shape, which the interpreter never produces). -/
def writeField : TagName → FieldVal → ExifData → ExifData
  | .make, .s v, r => { r with Make := v }
  | .model, .s v, r => { r with Model := v }
  | .lensMake, .s v, r => { r with LensMake := v }
  | .lensModel, .s v, r => { r with LensModel := v }
  | .exposureTime, .s v, r => { r with ExposureTime := v }
  | .fNumber, .s v, r => { r with FNumber := v }
  | .photographicSensitivity, .s v, r => { r with PhotographicSensitivity := v }
  | .focalLengthIn35mmFilm, .s v, r => { r with FocalLengthIn35mmFilm := v }
  | .focalLength, .s v, r => { r with FocalLength := v }
  | .dateTimeOriginal, .s v, r => { r with DateTimeOriginal := v }
  | .pixelXDimension, .i v, r => { r with PixelXDimension := v }
  | .pixelYDimension, .i v, r => { r with PixelYDimension := v }
  | .orientation, .s v, r => { r with Orientation := v }
  | _, _, r => r

/-! ## The Field Interpreter: the switch of getExif
    (src/main.go lines 169-226) -/

/-- The per-field conversion switch of getExif, applied to the decoded
    string.  Returns error for the fatal os.Exit(1) paths, ok none where
    the Go code writes nothing (the continue on a timestamp parse
    failure), and ok (some w) for a value written to the record. -/
def writeOfValue : TagName → String → Except Unit (Option FieldVal)
  | .make, v => .ok (some (.s v))
  | .model, v => .ok (some (.s v))
  | .lensMake, v => .ok (some (.s v))
  | .lensModel, v => .ok (some (.s v))
  | .exposureTime, v => .ok (some (.s v))
  | .fNumber, v => .ok (some (.s (interpFNumber v)))
  | .photographicSensitivity, v => .ok (some (.s v))
  | .focalLengthIn35mmFilm, v => .ok (some (.s v))
  | .focalLength, v => .ok (some (.s v))
  | .dateTimeOriginal, v =>
    match parseDTO v with
    | none => .ok none
    | some t => .ok (some (.s (formatDTO t)))
  | .pixelXDimension, v =>
    match atoiPair v.data with
    | (n, true) => .ok (some (.i n))
    | (_, false) => .error ()
  | .pixelYDimension, v =>
    match atoiPair v.data with
    | (n, true) => .ok (some (.i n))
    | (_, false) => .error ()
  | .orientation, v => .ok (some (.s v))

/-- One switch step applied to a record: propagate the fatal exit, keep
    the record on a skip, or write the produced value. -/
def interpretField (f : TagName) (v : String) (r : ExifData) : Except Unit ExifData :=
  match writeOfValue f v with
  | .error e => .error e
  | .ok none => .ok r
  | .ok (some w) => .ok (writeField f w r)

/-! ## The Tag Locator: directory resolution, tag search, first-value
    decode (src/main.go lines 140-167), over the external interface of
    the specification. -/

/-- A tag entry of the directory tree: its numeric id and the result of
    FormatFirst, which either decodes the first value to a string or
    fails (none). -/
structure Entry where
  tagId : Nat
  formatFirst : Option String
deriving DecidableEq

/-- A directory node: its tagged entries in container order. -/
structure Ifd where
  entries : List Entry
deriving DecidableEq

/-- The external directory tree: resolution of a path to a directory
    node, or failure. -/
structure Env where
  findIfd : String → Option Ifd

/-- Tag search: the entries of the directory whose id matches, in
    container order (specification section 6). -/
def findTagWithId (ifd : Ifd) (tagId : Nat) : List Entry :=
  ifd.entries.filter (fun e => e.tagId == tagId)

/-- One iteration of the getExif field loop: resolve the directory path
    (failure is the fatal FindIfdFromRootIfd exit), search the tag id,
    skip when no entry matches, otherwise take the first entry and decode
    its first value.  The source discards the FormatFirst error (value,
    underscore assignment) and then tests the stale err variable, which
    is necessarily nil at that point, so a decode failure leaves value as
    the empty string and processing continues into the switch. -/
def getExifStep (env : Env) (f : TagName) (r : ExifData) : Except Unit ExifData :=
  match env.findIfd (ifdPathOf f) with
  | none => .error ()
  | some ifd =>
    match findTagWithId ifd (tagIdOf f) with
    | [] => .ok r
    | item :: _ =>
      let value := item.formatFirst.getD ""
      interpretField f value r

/-- Process a list of fields in order, threading the record and stopping
    at the first fatal exit (the loop of getExif, lines 140-227). -/
def runExtract (env : Env) : List TagName → ExifData → Except Unit ExifData
  | [], r => .ok r
  | f :: L, r =>
    match getExifStep env f r with
    | .error e => .error e
    | .ok r' => runExtract env L r'

/-- The thirteen fields in one fixed order.  Go iterates the map in an
    unspecified order; order-independence of the result is proved
    separately. -/
def fieldOrder : List TagName :=
  [.make, .model, .lensMake, .lensModel, .exposureTime, .fNumber,
   .photographicSensitivity, .focalLengthIn35mmFilm, .focalLength,
   .dateTimeOriginal, .pixelXDimension, .pixelYDimension, .orientation]

/-- getExif: run every field over the directory tree, starting from the
    zero-valued record. -/
def getExif (env : Env) : Except Unit ExifData :=
  runExtract env fieldOrder exifInit

/-- A two-directory environment: a root directory and an Exif
    sub-directory (the shape every claim exercises). -/
def mkEnv (rootEntries exifEntries : List Entry) : Env :=
  ⟨fun p =>
    if p = IFD_PATH then some ⟨rootEntries⟩
    else if p = EXIF_IFD_PATH then some ⟨exifEntries⟩
    else none⟩

/-! ## The Field Interpreter over a raw value set (for the determinism
    claim): the raw decoded value of each field, or none when absent. -/

/-- One field of the raw value set fed to the interpreter: skip absent
    fields, interpret present ones. -/
def stepRaw (raw : TagName → Option String) (f : TagName) (r : ExifData) :
    Except Unit ExifData :=
  match raw f with
  | none => .ok r
  | some v => interpretField f v r

/-- Run the interpreter over a list of fields of a raw value set. -/
def runFields (raw : TagName → Option String) : List TagName → ExifData → Except Unit ExifData
  | [], r => .ok r
  | f :: L, r =>
    match stepRaw raw f r with
    | .error e => .error e
    | .ok r' => runFields raw L r'

/-- Whether a value has the shape of the record field named: the two
    pixel dimensions hold ints, every other field a string. -/
def shapeOk : TagName → FieldVal → Bool
  | .pixelXDimension, .i _ => true
  | .pixelYDimension, .i _ => true
  | .pixelXDimension, .s _ => false
  | .pixelYDimension, .s _ => false
  | _, .s _ => true
  | _, .i _ => false

/-- The value the switch writes for a field, when it writes one. -/
def writeResult (f : TagName) (v : String) : Option FieldVal :=
  match writeOfValue f v with
  | .ok (some w) => some w
  | _ => none

/-- The value a field projection holds after its own interpreter step:
    unchanged when the field is absent or skipped, otherwise the value
    the switch writes. -/
def afterProj (raw : TagName → Option String) (f : TagName) (x : FieldVal) : FieldVal :=
  match raw f with
  | none => x
  | some v => (writeResult f v).getD x

/-- A sample raw value set (used to instantiate the determinism
    theorem). -/
def rawExample : TagName → Option String
  | .make => some "Canon"
  | .fNumber => some "18/10"
  | .dateTimeOriginal => some "2022:01:01 12:00:00"
  | _ => none

/-- Interpreter run over the sample raw value set in the fixed field
    order. -/
def rFwd : ExifData :=
  match runFields rawExample fieldOrder exifInit with
  | .ok r => r
  | .error _ => exifInit

/-- Interpreter run over the sample raw value set in the reversed field
    order. -/
def rRev : ExifData :=
  match runFields rawExample fieldOrder.reverse exifInit with
  | .ok r => r
  | .error _ => exifInit

/-! ## Auxiliary lemmas -/

theorem lg2p_eq_log (fuel : Nat) : ∀ n : Nat, n ≤ fuel → lg2p fuel n = Nat.log 2 n := by
  induction fuel with
  | zero =>
    intro n hn
    have : n = 0 := Nat.le_zero.mp hn
    subst this
    simp [lg2p]
  | succ fuel ih =>
    intro n hn
    show (if n < 2 then 0 else lg2p fuel (n / 2) + 1) = Nat.log 2 n
    by_cases h2 : n < 2
    · simp [h2, Nat.log_of_lt h2]
    · have h2' : 2 ≤ n := Nat.not_lt.mp h2
      have hdiv : n / 2 ≤ fuel := by
        have : n / 2 < n := Nat.div_lt_self (by omega) (by omega)
        omega
      rw [if_neg h2, ih _ hdiv]
      have hlog : Nat.log 2 (n / 2) = Nat.log 2 n - 1 := Nat.log_div_base 2 n
      have hpos : Nat.log 2 n ≠ 0 := by
        intro h0
        rw [Nat.log_eq_zero_iff] at h0
        omega
      omega

theorem lg2_eq_log (n : Nat) : lg2 n = Nat.log 2 n := lg2p_eq_log n n le_rfl

theorem rneFrac_ge_div (num den : Nat) : num / den ≤ rneFrac num den := by
  unfold rneFrac
  split
  · exact le_rfl
  · split
    · omega
    · split <;> omega

theorem rneFrac_pos (num den : Nat) (hle : den ≤ num) (hd : 0 < den) :
    0 < rneFrac num den :=
  lt_of_lt_of_le ((Nat.one_le_div_iff hd).mpr hle) (rneFrac_ge_div num den)

theorem roundPos_int (neg : Bool) (n : Nat) (hn : 1 ≤ n) :
    roundPos neg n 1 0 = F32.inf neg ∨
    ∃ m e, roundPos neg n 1 0 = F32.finite neg m e ∧ m ≠ 0 := by
  have hle : (2 : Nat) ^ lg2 n ≤ n := by
    rw [lg2_eq_log]
    exact Nat.pow_log_le_self 2 (by omega)
  have hlg1 : lg2 1 = 0 := rfl
  unfold roundPos
  rw [hlg1]
  simp only [Nat.cast_zero, sub_zero, add_zero]
  have hbr : ltShift n 0 1 ((lg2 n : ℤ)) = false := by
    unfold ltShift shNat
    have hmin : min (0 : ℤ) ((lg2 n : ℤ)) = 0 := by
      apply min_eq_left
      exact Int.natCast_nonneg _
    rw [hmin]
    simp only [sub_zero, Int.toNat_zero, Int.toNat_natCast, pow_zero, mul_one, one_mul]
    exact decide_eq_false (Nat.not_lt.mpr hle)
  simp only [hbr, Bool.false_eq_true, if_false]
  have hmax : ((lg2 n : ℤ)) ⊔ (-126) = (lg2 n : ℤ) := by
    apply max_eq_left
    have := Int.natCast_nonneg (lg2 n)
    omega
  simp only [hmax, zero_sub, neg_neg, neg_sub]
  have hm : 0 < rneFrac (shNat n (23 - (lg2 n : ℤ))) (shNat 1 ((lg2 n : ℤ) - 23)) := by
    apply rneFrac_pos
    · unfold shNat
      rcases le_or_lt (lg2 n) 23 with h | h
      · have h1 : (((lg2 n : ℤ)) - 23).toNat = 0 := by omega
        have h2 : ((23 : ℤ) - (lg2 n : ℤ)).toNat = 23 - lg2 n := by omega
        rw [h1, h2, pow_zero, mul_one]
        calc (1 : ℕ) = 1 * 1 := by ring
          _ ≤ n * 2 ^ (23 - lg2 n) := Nat.mul_le_mul hn Nat.one_le_two_pow
      · have h1 : (((lg2 n : ℤ)) - 23).toNat = lg2 n - 23 := by omega
        have h2 : ((23 : ℤ) - (lg2 n : ℤ)).toNat = 0 := by omega
        rw [h1, h2, pow_zero, mul_one, one_mul]
        calc 2 ^ (lg2 n - 23) ≤ 2 ^ lg2 n := Nat.pow_le_pow_right (by norm_num) (by omega)
          _ ≤ n := hle
    · unfold shNat
      positivity
  by_cases hof :
      ltShift (rneFrac (shNat n (23 - (lg2 n : ℤ))) (shNat 1 ((lg2 n : ℤ) - 23)))
        ((lg2 n : ℤ) - 23) 1 128 = true
  · right
    refine ⟨rneFrac (shNat n (23 - (lg2 n : ℤ))) (shNat 1 ((lg2 n : ℤ) - 23)),
      (lg2 n : ℤ) - 23, ?_, ?_⟩
    · simp only [hof, if_true]
    · omega
  · left
    simp only [hof, if_false, Bool.false_eq_true]

theorem f32ofInt_nonzero (x : Int) (hx : x ≠ 0) :
    f32ofInt x = F32.inf (decide (x < 0)) ∨
    ∃ m e, f32ofInt x = F32.finite (decide (x < 0)) m e ∧ m ≠ 0 := by
  have hn : 1 ≤ x.natAbs := Int.natAbs_pos.mpr hx
  unfold f32ofInt
  rw [if_neg hx]
  exact roundPos_int _ _ hn

theorem f32div_zero_num (x : Int) (hx : x ≠ 0) :
    f32div (f32ofInt 0) (f32ofInt x) = F32.finite (decide (x < 0)) 0 0 := by
  have h0 : f32ofInt 0 = F32.finite false 0 0 := rfl
  rcases f32ofInt_nonzero x hx with h | ⟨m, e, h, hm⟩
  · rw [h0, h]
    simp [f32div]
  · rw [h0, h]
    simp [f32div, hm]

theorem f32div_zero_den (x : Int) (hx : x ≠ 0) :
    f32div (f32ofInt x) (f32ofInt 0) = F32.inf (decide (x < 0)) := by
  have h0 : f32ofInt 0 = F32.finite false 0 0 := rfl
  rcases f32ofInt_nonzero x hx with h | ⟨m, e, h, hm⟩
  · rw [h0, h]
    simp [f32div]
  · rw [h0, h]
    simp [f32div, hm]

theorem validIntStr_false_iff (cs : List Char) :
    validIntStr cs = false ↔ parseIntStr cs = none := by
  unfold validIntStr
  cases parseIntStr cs <;> simp

theorem atoiPair_cases (cs : List Char) :
    ((atoiPair cs).1 = intValOf cs) ∨
    ((atoiPair cs).1 ≠ 0 ∧ intValOf cs ≠ 0 ∧
      ((atoiPair cs).1 < 0 ↔ intValOf cs < 0)) := by
  unfold atoiPair intValOf
  cases h : parseIntStr cs with
  | none => left; rfl
  | some p =>
    obtain ⟨neg, m⟩ := p
    cases neg with
    | false =>
      by_cases hr : m < 2 ^ 63
      · left
        simp only [Bool.false_eq_true, if_false, if_pos hr]
      · right
        have hm : (9223372036854775808 : Nat) ≤ m := by
          have h2 := Nat.not_lt.mp hr
          norm_num at h2
          exact h2
        simp only [Bool.false_eq_true, if_false, if_neg hr]
        refine ⟨by norm_num, by omega, ?_⟩
        rw [show ((2 : Int) ^ 63 - 1) = 9223372036854775807 from by norm_num]
        omega
    | true =>
      by_cases hr : m ≤ 2 ^ 63
      · left
        simp only [if_true, if_pos hr]
      · right
        have hm : (9223372036854775808 : Nat) < m := by
          have h2 := Nat.not_le.mp hr
          norm_num at h2
          exact h2
        simp only [if_true, if_neg hr]
        refine ⟨by norm_num, by omega, ?_⟩
        rw [show (-((2 : Int) ^ 63)) = -9223372036854775808 from by norm_num]
        omega

theorem fmt1_div_parts (p0 p1 : List Char)
    (hbad : validIntStr p0 = false ∨ validIntStr p1 = false) :
    fmt1 (f32div (f32ofInt (atoiPair p0).1) (f32ofInt (atoiPair p1).1)) =
    fmt1 (f32div (f32ofInt (intValOf p0)) (f32ofInt (intValOf p1))) := by
  rcases hbad with hb | hb
  · have h0 : parseIntStr p0 = none := (validIntStr_false_iff p0).mp hb
    have ha0 : (atoiPair p0).1 = 0 := by simp [atoiPair, h0]
    have hc0 : intValOf p0 = 0 := by simp [intValOf, h0]
    rw [ha0, hc0]
    rcases atoiPair_cases p1 with heq | ⟨hna, hnc, hiff⟩
    · rw [heq]
    · rw [f32div_zero_num _ hna, f32div_zero_num _ hnc,
        decide_eq_decide.mpr hiff]
  · have h1 : parseIntStr p1 = none := (validIntStr_false_iff p1).mp hb
    have ha1 : (atoiPair p1).1 = 0 := by simp [atoiPair, h1]
    have hc1 : intValOf p1 = 0 := by simp [intValOf, h1]
    rw [ha1, hc1]
    rcases atoiPair_cases p0 with heq | ⟨hna, hnc, hiff⟩
    · rw [heq]
    · rw [f32div_zero_den _ hna, f32div_zero_den _ hnc,
        decide_eq_decide.mpr hiff]

theorem atoiPair_true_val (cs : List Char) (h2 : (atoiPair cs).2 = true) :
    (atoiPair cs).1 = intValOf cs := by
  unfold atoiPair at h2
  unfold atoiPair intValOf
  cases h : parseIntStr cs with
  | none =>
    rw [h] at h2
  | some p =>
    obtain ⟨neg, m⟩ := p
    rw [h] at h2
    cases neg with
    | false =>
      by_cases hr : m < 2 ^ 63
      · simp only [Bool.false_eq_true, if_false, if_pos hr]
      · simp only [Bool.false_eq_true, if_false, if_neg hr] at h2
    | true =>
      by_cases hr : m ≤ 2 ^ 63
      · simp only [if_true, if_pos hr]
      · simp only [if_true, if_neg hr] at h2
        exact Bool.noConfusion h2

theorem interpretField_eq (f : TagName) (v : String) (r : ExifData) :
    interpretField f v r =
      (match writeOfValue f v with
       | .error e => .error e
       | .ok none => .ok r
       | .ok (some w) => .ok (writeField f w r)) := rfl

theorem writeOfValue_dto (v : String) :
    writeOfValue .dateTimeOriginal v =
      (match parseDTO v with
       | none => .ok none
       | some t => .ok (some (.s (formatDTO t)))) := rfl

theorem writeOfValue_px (v : String) :
    writeOfValue .pixelXDimension v =
      (match atoiPair v.data with
       | (n, true) => .ok (some (.i n))
       | (_, false) => .error ()) := rfl

theorem writeOfValue_py (v : String) :
    writeOfValue .pixelYDimension v =
      (match atoiPair v.data with
       | (n, true) => .ok (some (.i n))
       | (_, false) => .error ()) := rfl

theorem projField_writeField_ne (f g : TagName) (w : FieldVal) (r : ExifData)
    (hg : g ≠ f) : projField g (writeField f w r) = projField g r := by
  cases w <;> cases f <;> cases g <;> simp_all [writeField, projField]

/-! ## The claims -/

/-- C1 (code bug evidence): contrary to the claim that a matched tag
    whose first-value decode fails aborts extraction with a non-zero
    status, the source discards the FormatFirst error (the value,
    underscore assignment at line 163) and then tests the stale err from
    the previous call, which cannot be non-nil there; so with a Make
    entry whose decode fails, the iteration stores the empty string over
    any prior value and the whole extraction completes successfully. -/
theorem decode_failure_not_fatal :
    getExifStep (mkEnv [⟨0x010f, none⟩] []) .make { exifInit with Make := "prior" } =
      .ok exifInit ∧
    getExif (mkEnv [⟨0x010f, none⟩] []) = .ok exifInit :=
  ⟨rfl, rfl⟩

/-- C2: the FNumber rule: a raw value without a slash passes through
    unchanged; a raw value with a slash is split, its first two parts are
    converted by Atoi, divided as float32 and the quotient stored
    formatted with exactly one decimal digit; 16/10 gives 1.6, 28/1
    gives 28.0, and 4 stays 4. -/
theorem fnumber_rational_rule :
    (∀ v : String, containsSlash v.data = false → interpFNumber v = v) ∧
    (∀ v : String, ∀ r : ExifData, containsSlash v.data = true →
      interpretField .fNumber v r =
        .ok { r with FNumber :=
          (fmt1 (f32div (f32ofInt (atoiPair ((splitSlash v.data).getD 0 [])).1)
                        (f32ofInt (atoiPair ((splitSlash v.data).getD 1 [])).1))) }) ∧
    interpFNumber "16/10" = "1.6" ∧
    interpFNumber "28/1" = "28.0" ∧
    interpFNumber "4" = "4" := by
  refine ⟨?_, ?_, by decide, by decide, by decide⟩
  · intro v h
    unfold interpFNumber
    rw [h]
    simp
  · intro v r h
    show Except.ok (writeField .fNumber (.s (interpFNumber v)) r) = _
    unfold interpFNumber
    rw [if_pos h]
    rfl

/-- Witness for C2 at the concrete inputs of the claim. -/
theorem fnumber_rational_rule_witness :
    containsSlash "4".data = false ∧ interpFNumber "4" = "4" ∧
    containsSlash "16/10".data = true ∧
    interpretField .fNumber "16/10" exifInit =
      .ok { exifInit with FNumber := "1.6" } := by
  refine ⟨by decide, fnumber_rational_rule.1 "4" (by decide), by decide, ?_⟩
  have h := fnumber_rational_rule.2.1 "16/10" exifInit (by decide)
  rw [show fmt1 (f32div (f32ofInt (atoiPair ((splitSlash "16/10".data).getD 0 [])).1)
      (f32ofInt (atoiPair ((splitSlash "16/10".data).getD 1 [])).1)) = "1.6" from by decide] at h
  exact h

/-- C3: every DateTimeOriginal raw value that parses under the fixed
    layout is stored reformatted with slashes and minute precision. -/
theorem datetime_reformat (v : String) (t : GoTime) (r : ExifData)
    (h : parseDTO v = some t) :
    interpretField .dateTimeOriginal v r =
      .ok { r with DateTimeOriginal := formatDTO t } := by
  rw [interpretField_eq, writeOfValue_dto, h]
  rfl

/-- Witness for C3 at the concrete input of the claim. -/
theorem datetime_reformat_witness :
    parseDTO "2023:04:05 09:30:00" = some ⟨2023, 4, 5, 9, 30, 0⟩ ∧
    interpretField .dateTimeOriginal "2023:04:05 09:30:00" exifInit =
      .ok { exifInit with DateTimeOriginal := "2023/04/05 09:30" } := by
  refine ⟨by decide, ?_⟩
  have h := datetime_reformat "2023:04:05 09:30:00" ⟨2023, 4, 5, 9, 30, 0⟩ exifInit (by decide)
  rw [show formatDTO ⟨2023, 4, 5, 9, 30, 0⟩ = "2023/04/05 09:30" from by decide] at h
  exact h

/-- C4: the pixel dimension fields parse the decoded string as a base-10
    integer and store the integer; a parse failure is the fatal exit. -/
theorem pixel_dimension_parse (v : String) :
    ((atoiPair v.data).2 = true →
      writeOfValue .pixelXDimension v = .ok (some (.i (intValOf v.data))) ∧
      writeOfValue .pixelYDimension v = .ok (some (.i (intValOf v.data)))) ∧
    ((atoiPair v.data).2 = false →
      writeOfValue .pixelXDimension v = .error () ∧
      writeOfValue .pixelYDimension v = .error ()) := by
  constructor
  · intro htrue
    have hval := atoiPair_true_val v.data htrue
    rcases hap : atoiPair v.data with ⟨n, b⟩
    rw [hap] at htrue hval
    have hval' : n = intValOf v.data := hval
    have hb : b = true := htrue
    subst hb
    subst hval'
    constructor
    · rw [writeOfValue_px, hap]
    · rw [writeOfValue_py, hap]
  · intro hfalse
    rcases hap : atoiPair v.data with ⟨n, b⟩
    rw [hap] at hfalse
    have hb : b = false := hfalse
    subst hb
    constructor
    · rw [writeOfValue_px, hap]
    · rw [writeOfValue_py, hap]

/-- Witness for C4 at the concrete inputs of the claim, including the
    whole-extraction abort on a non-numeric pixel dimension. -/
theorem pixel_dimension_parse_witness :
    (atoiPair "4032".data).2 = true ∧
    writeOfValue .pixelXDimension "4032" = .ok (some (.i 4032)) ∧
    (atoiPair "abc".data).2 = false ∧
    writeOfValue .pixelXDimension "abc" = .error () ∧
    getExif (mkEnv [] [⟨0xa002, some "abc"⟩]) = .error () := by
  refine ⟨by decide, ?_, by decide, ?_, rfl⟩
  · have h := ((pixel_dimension_parse "4032").1 (by decide)).1
    rw [show intValOf "4032".data = 4032 from by decide] at h
    exact h
  · exact ((pixel_dimension_parse "abc").2 (by decide)).1

/-- C5: when the directory path of a field resolves but no entry matches
    the tag id, the iteration leaves the record unchanged and returns
    successfully. -/
theorem absent_tag_skipped (env : Env) (f : TagName) (r : ExifData) (ifd : Ifd)
    (hfind : env.findIfd (ifdPathOf f) = some ifd)
    (hempty : findTagWithId ifd (tagIdOf f) = []) :
    getExifStep env f r = .ok r := by
  simp only [getExifStep, hfind, hempty]

/-- Witness for C5 with an empty root directory and the Make field. -/
theorem absent_tag_skipped_witness :
    (mkEnv [] []).findIfd (ifdPathOf .make) = some ⟨[]⟩ ∧
    findTagWithId ⟨[]⟩ (tagIdOf .make) = [] ∧
    getExifStep (mkEnv [] []) .make exifInit = .ok exifInit :=
  ⟨rfl, rfl, absent_tag_skipped _ _ _ _ rfl rfl⟩

/-- C6: a DateTimeOriginal raw value that fails the fixed-format parse is
    skipped without touching the record and without a fatal exit. -/
theorem datetime_unparseable_skipped (v : String) (r : ExifData)
    (h : parseDTO v = none) :
    interpretField .dateTimeOriginal v r = .ok r := by
  rw [interpretField_eq, writeOfValue_dto, h]

/-- Witness for C6 at the blank placeholder of the specification. -/
theorem datetime_unparseable_skipped_witness :
    parseDTO "    :  :     :  :  " = none ∧
    interpretField .dateTimeOriginal "    :  :     :  :  " exifInit = .ok exifInit :=
  ⟨by decide, datetime_unparseable_skipped _ _ (by decide)⟩

/-- C7: the nine pass-through fields store the decoded string in their
    record field completely unchanged. -/
theorem passthrough_unchanged (v : String) (r : ExifData) :
    interpretField .make v r = .ok { r with Make := v } ∧
    interpretField .model v r = .ok { r with Model := v } ∧
    interpretField .lensMake v r = .ok { r with LensMake := v } ∧
    interpretField .lensModel v r = .ok { r with LensModel := v } ∧
    interpretField .exposureTime v r = .ok { r with ExposureTime := v } ∧
    interpretField .photographicSensitivity v r =
      .ok { r with PhotographicSensitivity := v } ∧
    interpretField .focalLengthIn35mmFilm v r =
      .ok { r with FocalLengthIn35mmFilm := v } ∧
    interpretField .focalLength v r = .ok { r with FocalLength := v } ∧
    interpretField .orientation v r = .ok { r with Orientation := v } :=
  ⟨rfl, rfl, rfl, rfl, rfl, rfl, rfl, rfl, rfl⟩

/-- C9: an FNumber raw value with a slash whose numerator or denominator
    part is not a syntactically valid base-10 integer never aborts: the
    Atoi errors are discarded, an invalid part contributes the integer 0,
    and the field is set to the one-decimal formatting of the float32
    division of the denoted values. -/
theorem fnumber_malformed_nonfatal (v : String) (r : ExifData)
    (hs : containsSlash v.data = true)
    (hbad : validIntStr ((splitSlash v.data).getD 0 []) = false ∨
            validIntStr ((splitSlash v.data).getD 1 []) = false) :
    interpretField .fNumber v r =
      .ok { r with FNumber :=
        (fmt1 (f32div (f32ofInt (intValOf ((splitSlash v.data).getD 0 [])))
                      (f32ofInt (intValOf ((splitSlash v.data).getD 1 []))))) } ∧
    (validIntStr ((splitSlash v.data).getD 0 []) = false →
      intValOf ((splitSlash v.data).getD 0 []) = 0) ∧
    (validIntStr ((splitSlash v.data).getD 1 []) = false →
      intValOf ((splitSlash v.data).getD 1 []) = 0) := by
  refine ⟨?_, ?_, ?_⟩
  · show Except.ok (writeField .fNumber (.s (interpFNumber v)) r) = _
    have hi : interpFNumber v =
        fmt1 (f32div (f32ofInt (intValOf ((splitSlash v.data).getD 0 [])))
                     (f32ofInt (intValOf ((splitSlash v.data).getD 1 [])))) := by
      unfold interpFNumber
      rw [if_pos hs]
      exact fmt1_div_parts _ _ hbad
    rw [hi]
    rfl
  · intro h
    unfold intValOf
    rw [(validIntStr_false_iff _).mp h]
  · intro h
    unfold intValOf
    rw [(validIntStr_false_iff _).mp h]

/-- Witness for C9 at the concrete inputs of the claim. -/
theorem fnumber_malformed_nonfatal_witness :
    interpretField .fNumber "ab/cd" exifInit =
      .ok { exifInit with FNumber := "NaN" } ∧
    interpretField .fNumber "1/x" exifInit =
      .ok { exifInit with FNumber := "+Inf" } := by
  constructor
  · have h := (fnumber_malformed_nonfatal "ab/cd" exifInit (by decide)
      (Or.inl (by decide))).1
    rw [show fmt1 (f32div (f32ofInt (intValOf ((splitSlash "ab/cd".data).getD 0 [])))
        (f32ofInt (intValOf ((splitSlash "ab/cd".data).getD 1 [])))) = "NaN"
      from by decide] at h
    exact h
  · have h := (fnumber_malformed_nonfatal "1/x" exifInit (by decide)
      (Or.inr (by decide))).1
    rw [show fmt1 (f32div (f32ofInt (intValOf ((splitSlash "1/x".data).getD 0 [])))
        (f32ofInt (intValOf ((splitSlash "1/x".data).getD 1 [])))) = "+Inf"
      from by decide] at h
    exact h

/-- C10: one iteration of the field loop changes at most the record
    field its descriptor names; every other projection is untouched. -/
theorem step_frame (env : Env) (f : TagName) (r r' : ExifData)
    (h : getExifStep env f r = .ok r') (g : TagName) (hg : g ≠ f) :
    projField g r' = projField g r := by
  unfold getExifStep at h
  cases hfi : env.findIfd (ifdPathOf f) with
  | none =>
    rw [hfi] at h
    exact Except.noConfusion h
  | some ifd =>
    simp only [hfi] at h
    cases hft : findTagWithId ifd (tagIdOf f) with
    | nil =>
      simp only [hft] at h
      have h' : (Except.ok r : Except Unit ExifData) = .ok r' := h
      injection h' with h''
      rw [h'']
    | cons item rest =>
      simp only [hft] at h
      rw [interpretField_eq] at h
      cases hw : writeOfValue f (item.formatFirst.getD "") with
      | error e =>
        rw [hw] at h
        exact Except.noConfusion h
      | ok o =>
        rw [hw] at h
        cases o with
        | none =>
          have h' : (Except.ok r : Except Unit ExifData) = .ok r' := h
          injection h' with h''
          rw [h'']
        | some w =>
          have h' : (Except.ok (writeField f w r) : Except Unit ExifData) = .ok r' := h
          injection h' with h''
          rw [← h'']
          exact projField_writeField_ne f g w r hg

/-- Witness for C10: writing Make leaves Model untouched. -/
theorem step_frame_witness :
    getExifStep (mkEnv [⟨0x010f, some "X"⟩] []) .make exifInit =
      .ok { exifInit with Make := "X" } ∧
    projField .model { exifInit with Make := "X" } = projField .model exifInit :=
  ⟨rfl, step_frame (mkEnv [⟨0x010f, some "X"⟩] []) .make exifInit
    { exifInit with Make := "X" } rfl .model (by decide)⟩

theorem except_ok_some_inj {α : Type} {a b : α}
    (h : (Except.ok (some a) : Except Unit (Option α)) = .ok (some b)) : a = b := by
  injection h with h1
  injection h1

theorem projField_writeField_eq (f : TagName) (v : String) (w : FieldVal) (r : ExifData)
    (hw : writeOfValue f v = .ok (some w)) :
    projField f (writeField f w r) = w := by
  cases f
  all_goals try {
    have hww := except_ok_some_inj hw
    rw [← hww]
    rfl }
  case dateTimeOriginal =>
    rw [writeOfValue_dto] at hw
    cases hp : parseDTO v with
    | none =>
      rw [hp] at hw
      injection hw with h1
      exact Option.noConfusion h1
    | some t =>
      rw [hp] at hw
      have hww := except_ok_some_inj hw
      rw [← hww]
      rfl
  case pixelXDimension =>
    rw [writeOfValue_px] at hw
    rcases hap : atoiPair v.data with ⟨n, b⟩
    rw [hap] at hw
    cases b with
    | false => exact Except.noConfusion hw
    | true =>
      have hww := except_ok_some_inj hw
      rw [← hww]
      rfl
  case pixelYDimension =>
    rw [writeOfValue_py] at hw
    rcases hap : atoiPair v.data with ⟨n, b⟩
    rw [hap] at hw
    cases b with
    | false => exact Except.noConfusion hw
    | true =>
      have hww := except_ok_some_inj hw
      rw [← hww]
      rfl

theorem stepRaw_proj (raw : TagName → Option String) (f : TagName) (r r' : ExifData)
    (h : stepRaw raw f r = .ok r') (g : TagName) :
    projField g r' =
      if g = f then afterProj raw f (projField f r) else projField g r := by
  unfold stepRaw at h
  cases hv : raw f with
  | none =>
    rw [hv] at h
    have h' : (Except.ok r : Except Unit ExifData) = .ok r' := h
    injection h' with h''
    subst h''
    by_cases hgf : g = f
    · subst hgf
      rw [if_pos rfl]
      unfold afterProj
      rw [hv]
    · rw [if_neg hgf]
  | some v =>
    simp only [hv] at h
    rw [interpretField_eq] at h
    cases hw : writeOfValue f v with
    | error e =>
      rw [hw] at h
      exact Except.noConfusion h
    | ok o =>
      rw [hw] at h
      cases o with
      | none =>
        have hwr : writeResult f v = none := by
          unfold writeResult
          rw [hw]
        have h' : (Except.ok r : Except Unit ExifData) = .ok r' := h
        injection h' with h''
        subst h''
        by_cases hgf : g = f
        · subst hgf
          rw [if_pos rfl]
          unfold afterProj
          rw [hv]
          show projField g r = (writeResult g v).getD (projField g r)
          rw [hwr]
          rfl
        · rw [if_neg hgf]
      | some w =>
        have hwr : writeResult f v = some w := by
          unfold writeResult
          rw [hw]
        have h' : (Except.ok (writeField f w r) : Except Unit ExifData) = .ok r' := h
        injection h' with h''
        subst h''
        by_cases hgf : g = f
        · subst hgf
          rw [if_pos rfl]
          unfold afterProj
          rw [hv]
          show projField g (writeField g w r) = (writeResult g v).getD (projField g r)
          rw [hwr]
          exact projField_writeField_eq g v w r hw
        · rw [if_neg hgf]
          exact projField_writeField_ne f g w r hgf

theorem afterProj_idem (raw : TagName → Option String) (g : TagName) (x : FieldVal) :
    afterProj raw g (afterProj raw g x) = afterProj raw g x := by
  unfold afterProj
  cases hv : raw g with
  | none => rfl
  | some v =>
    show (writeResult g v).getD ((writeResult g v).getD x) = (writeResult g v).getD x
    cases hw : writeResult g v with
    | none => rfl
    | some w => rfl

theorem runFields_proj (raw : TagName → Option String) :
    ∀ (L : List TagName) (r₀ r : ExifData),
      runFields raw L r₀ = .ok r →
      ∀ g, projField g r =
        if g ∈ L then afterProj raw g (projField g r₀) else projField g r₀ := by
  intro L
  induction L with
  | nil =>
    intro r₀ r h g
    have h' : (Except.ok r₀ : Except Unit ExifData) = .ok r := h
    injection h' with h''
    subst h''
    simp
  | cons f L ih =>
    intro r₀ r h g
    unfold runFields at h
    cases hs : stepRaw raw f r₀ with
    | error e =>
      rw [hs] at h
      exact Except.noConfusion h
    | ok r₁ =>
      rw [hs] at h
      have h' : runFields raw L r₁ = .ok r := h
      have hstep := stepRaw_proj raw f r₀ r₁ hs g
      have hrec := ih r₁ r h' g
      rw [hrec, hstep]
      by_cases hgf : g = f
      · subst hgf
        rw [if_pos rfl]
        by_cases hgL : g ∈ L
        · simp [List.mem_cons, hgL, afterProj_idem]
        · simp [List.mem_cons, hgL]
      · rw [if_neg hgf]
        by_cases hgL : g ∈ L
        · simp [List.mem_cons, hgL]
        · simp [List.mem_cons, hgL, hgf]

theorem projField_all_ext (a b : ExifData)
    (h : ∀ g, projField g a = projField g b) : a = b := by
  have h1 := h .make
  have h2 := h .model
  have h3 := h .lensMake
  have h4 := h .lensModel
  have h5 := h .exposureTime
  have h6 := h .fNumber
  have h7 := h .photographicSensitivity
  have h8 := h .focalLengthIn35mmFilm
  have h9 := h .focalLength
  have h10 := h .dateTimeOriginal
  have h11 := h .pixelXDimension
  have h12 := h .pixelYDimension
  have h13 := h .orientation
  simp only [projField, FieldVal.s.injEq, FieldVal.i.injEq] at h1 h2 h3 h4 h5 h6 h7 h8 h9 h10 h11 h12 h13
  cases a
  cases b
  simp_all

/-- C8: the Field Interpreter is a pure, deterministic function of the
    raw value set: two successful runs over the same raw values, in any
    two orders that are permutations of each other (Go iterates the field
    map in an unspecified order), produce identical Metadata Records. -/
theorem interpreter_deterministic (raw : TagName → Option String)
    (L₁ L₂ : List TagName) (r₁ r₂ : ExifData) (hperm : L₁.Perm L₂)
    (h₁ : runFields raw L₁ exifInit = .ok r₁)
    (h₂ : runFields raw L₂ exifInit = .ok r₂) : r₁ = r₂ := by
  apply projField_all_ext
  intro g
  rw [runFields_proj raw L₁ exifInit r₁ h₁ g,
      runFields_proj raw L₂ exifInit r₂ h₂ g]
  by_cases hg : g ∈ L₁
  · rw [if_pos hg, if_pos (hperm.mem_iff.mp hg)]
  · rw [if_neg hg, if_neg (fun hc => hg (hperm.mem_iff.mpr hc))]

/-- Witness for C8: the sample raw value set, run in the fixed order and
    in the reversed order, gives the same record. -/
theorem interpreter_deterministic_witness : rFwd = rRev :=
  interpreter_deterministic rawExample fieldOrder fieldOrder.reverse rFwd rRev
    (List.reverse_perm fieldOrder).symm rfl rfl

end Exiframe
